import Mathlib

/-!
# Verification of the subway-route-data-extraction core

Shallow embedding of `src/data_processing.py` and `src/data_visualization.py`.

Python dicts are modelled as insertion-ordered association lists
(`List (κ × α)`) with Python-dict insertion (overwrite in place) and
first-match lookup; since insertion overwrites in place, keys stay unique
and first-match lookup agrees with dict lookup.  Python `KeyError` on a
missing key is modelled by `Except String`.  Coordinates (Python floats)
are modelled as rationals `ℚ`; the only arithmetic performed on them is
summation and division by a count.  The `networkx.Graph` is modelled by
its observable state: an insertion-ordered node-attribute dictionary and
an insertion-ordered undirected edge list (`add_edge` inserts missing
endpoints with no attributes and deduplicates undirected edges, as
networkx does).
-/

set_option autoImplicit false

namespace Subway

/-- One entry of a relation's `members` array: a node reference and a role. -/
structure Member where
  ref : Int
  role : String
deriving DecidableEq, Repr

/-- A tag map (`element['tags']`): insertion-ordered string-keyed dict. -/
abbrev Tags := List (String × String)

/-- A raw element of the Overpass payload.  A field that the underlying
JSON object may lack is an `Option`; `none` means the key is absent, and
reading it raises a `KeyError`. -/
structure RawElement where
  type : String
  id : Int
  tags : Option Tags
  lat : Option ℚ
  lon : Option ℚ
  members : Option (List Member)
deriving DecidableEq, Repr

/-- First-match lookup in a string-keyed dict (Python `tags.get(k)`). -/
def tagGet (k : String) : Tags → Option String
  | [] => none
  | (k', v) :: rest => if k' = k then some v else tagGet k rest

/-- First-match lookup in an `Int`-keyed dict (`d[k]` / `k in d`). -/
def dictFind {α : Type} (k : Int) : List (Int × α) → Option α
  | [] => none
  | (k', v) :: rest => if k' = k then some v else dictFind k rest

/-- Python dict insertion `d[k] = v`: overwrite in place if the key is
present, else append at the end. -/
def dictInsert {α : Type} (k : Int) (v : α) : List (Int × α) → List (Int × α)
  | [] => [(k, v)]
  | (k', v') :: rest =>
      if k' = k then (k, v) :: rest else (k', v') :: dictInsert k v rest

/-- `pat` occurs as a prefix of some suffix of the text (Python `pat in s`). -/
def subChars (pat : List Char) : List Char → Bool
  | [] => pat.isEmpty
  | c :: cs => pat.isPrefixOf (c :: cs) || subChars pat cs

/-- Python substring containment `pat in s`. -/
def strContains (s pat : String) : Bool :=
  subChars pat.toList s.toList

/-- `element for element in osm_data['elements']
     if 'tags' in element and 'route' in element['tags']`. -/
def extract_route_elements (elements : List RawElement) : List RawElement :=
  elements.filter fun e =>
    match e.tags with
    | some t => (tagGet "route" t).isSome
    | none => false

/-- `{element['id']: element for element in osm_data['elements']
      if element['type'] == 'node'}`. -/
def extract_node_elements (elements : List RawElement) :
    List (Int × RawElement) :=
  elements.foldl
    (fun d e => if e.type = "node" then dictInsert e.id e d else d) []

/-- Vertex attributes in the networkx graph.  A vertex fabricated by
`add_edge` carries none of them. -/
structure NodeAttrs where
  pos : Option (ℚ × ℚ)
  name : Option String
  colour : Option String
deriving DecidableEq, Repr

/-- Attribute set written by `G.add_node(ref, pos=..., name=..., colour=...)`. -/
def NodeAttrs.full (pos : ℚ × ℚ) (name colour : String) : NodeAttrs :=
  ⟨some pos, some name, some colour⟩

/-- Attribute set of a vertex fabricated by `G.add_edge`. -/
def NodeAttrs.empty : NodeAttrs := ⟨none, none, none⟩

/-- Observable state of a `networkx.Graph`: the node dict and the list of
undirected edges in insertion order. -/
structure Graph where
  nodes : List (Int × NodeAttrs)
  edges : List (Int × Int)
deriving DecidableEq, Repr

def Graph.emptyGraph : Graph := ⟨[], []⟩

def Graph.hasNode (G : Graph) (r : Int) : Bool :=
  (dictFind r G.nodes).isSome

/-- Undirected edge membership. -/
def Graph.hasEdge (G : Graph) (u v : Int) : Bool :=
  G.edges.any fun e => (e.1 = u && e.2 = v) || (e.1 = v && e.2 = u)

/-- `G.add_node(ref, **attrs)`: insert or overwrite the full attribute set. -/
def Graph.add_node (G : Graph) (r : Int) (a : NodeAttrs) : Graph :=
  { G with nodes := dictInsert r a G.nodes }

/-- `G.add_edge(u, v)`: insert missing endpoints with no attributes, then
record the undirected edge unless already present. -/
def Graph.add_edge (G : Graph) (u v : Int) : Graph :=
  let n1 := if (dictFind u G.nodes).isSome then G.nodes
            else G.nodes ++ [(u, NodeAttrs.empty)]
  let n2 := if (dictFind v n1).isSome then n1 else n1 ++ [(v, NodeAttrs.empty)]
  let G' : Graph := ⟨n2, G.edges⟩
  if G'.hasEdge u v then G' else { G' with edges := G'.edges ++ [(u, v)] }

/-- Reading a possibly-missing JSON key; `none` raises `KeyError`. -/
def getField {α : Type} (key : String) : Option α → Except String α
  | some x => .ok x
  | none => .error ("KeyError: " ++ key)

/-- The body of the vertex-creation loop of `create_route_graph`:
```
ref = node['ref']
if ref in node_elements:
    node_data = node_elements[ref]
    name = node_data['tags'].get('name', str(ref))
    colour = route['tags'].get('colour', '#808080')
    G.add_node(ref, pos=(node_data['lon'], node_data['lat']), name=name, colour=colour)
```
-/
def addStopVertex (node_elements : List (Int × RawElement))
    (route : RawElement) (G : Graph) (m : Member) : Except String Graph :=
  match dictFind m.ref node_elements with
  | none => .ok G
  | some node_data => do
      let ndTags ← getField "tags" node_data.tags
      let name := (tagGet "name" ndTags).getD (toString m.ref)
      let rTags ← getField "tags" route.tags
      let colour := (tagGet "colour" rTags).getD "#808080"
      let lon ← getField "lon" node_data.lon
      let lat ← getField "lat" node_data.lat
      .ok (G.add_node m.ref (NodeAttrs.full (lon, lat) name colour))

/-- `for i in range(len(stop_nodes) - 1): G.add_edge(stop_nodes[i]['ref'],
stop_nodes[i+1]['ref'])`, expressed as a walk along the ref list. -/
def addEdgesAlong (G : Graph) : List Int → Graph
  | u :: v :: rest => addEdgesAlong (G.add_edge u v) (v :: rest)
  | _ => G

/-- The stop-role member subsequence of a members list:
`[member for member in route['members'] if 'stop' in member['role']]`. -/
def stopMembers (members : List Member) : List Member :=
  members.filter fun m => strContains m.role "stop"

/-- One iteration of the outer route loop of `create_route_graph`. -/
def processRoute (node_elements : List (Int × RawElement))
    (G : Graph) (route : RawElement) : Except String Graph := do
  let members ← getField "members" route.members
  let stop_nodes := stopMembers members
  let G ← stop_nodes.foldlM (addStopVertex node_elements route) G
  .ok (addEdgesAlong G (stop_nodes.map Member.ref))

/-- `create_route_graph(route_elements, node_elements)`. -/
def create_route_graph (route_elements : List RawElement)
    (node_elements : List (Int × RawElement)) : Except String Graph :=
  route_elements.foldlM (processRoute node_elements) Graph.emptyGraph

/-- `nx.get_node_attributes(G, 'pos')`: the sub-dict of nodes carrying a
`pos` attribute. -/
def nodePositions (G : Graph) : List (Int × (ℚ × ℚ)) :=
  G.nodes.filterMap fun p => p.2.pos.map fun q => (p.1, q)

/-- `nx.get_node_attributes(G, 'name')`. -/
def nodeNames (G : Graph) : List (Int × String) :=
  G.nodes.filterMap fun p => p.2.name.map fun s => (p.1, s)

/-- `nx.get_node_attributes(G, 'colour')`. -/
def nodeColours (G : Graph) : List (Int × String) :=
  G.nodes.filterMap fun p => p.2.colour.map fun s => (p.1, s)

/-- A `folium.CircleMarker`: location is `[pos[1], pos[0]]` = (lat, lon). -/
structure Marker where
  location : ℚ × ℚ
  color : String
  tooltip : String
deriving DecidableEq, Repr

/-- A `folium.PolyLine` between two (lat, lon) locations. -/
structure Polyline where
  locations : (ℚ × ℚ) × (ℚ × ℚ)
deriving DecidableEq, Repr

/-- The `folium.Map` value built by `create_folium_map`: its center
location `[center_lat, center_lon]`, zoom, markers and polylines. -/
structure FoliumMap where
  location : ℚ × ℚ
  zoom_start : Int
  markers : List Marker
  polylines : List Polyline
deriving DecidableEq, Repr

/-- `create_folium_map(G, zoom_start)`; the `ValueError` for a graph with
no positioned vertex is the `Except.error` branch. -/
def create_folium_map (G : Graph) (zoom_start : Int) :
    Except String FoliumMap :=
  let positions := nodePositions G
  let node_labels := nodeNames G
  let node_colors := nodeColours G
  if positions.isEmpty then
    .error "Graph nodes must contain a 'pos' attribute with (longitude, latitude)."
  else
    let latitudes := positions.map fun p => p.2.2
    let longitudes := positions.map fun p => p.2.1
    let center_lat := latitudes.sum / (latitudes.length : ℚ)
    let center_lon := longitudes.sum / (longitudes.length : ℚ)
    let markers := positions.map fun p =>
      { location := (p.2.2, p.2.1)
        color := (dictFind p.1 node_colors).getD "blue"
        tooltip := (dictFind p.1 node_labels).getD ("Node " ++ toString p.1)
        : Marker }
    let polylines := G.edges.filterMap fun e =>
      match dictFind e.1 positions, dictFind e.2 positions with
      | some pu, some pv => some ⟨((pu.2, pu.1), (pv.2, pv.1))⟩
      | _, _ => none
    .ok { location := (center_lat, center_lon), zoom_start := zoom_start,
          markers := markers, polylines := polylines }

/-- The `pos` attribute of a vertex, if the vertex exists and carries one. -/
def vertexPos (G : Graph) (u : Int) : Option (ℚ × ℚ) :=
  (dictFind u G.nodes).bind NodeAttrs.pos

/-- The (lat, lon) locations of the `folium.PolyLine` drawn for an edge
whose endpoint positions are `pu` and `pv`. -/
def edgeLine (pu pv : ℚ × ℚ) : Polyline :=
  ⟨((pu.2, pu.1), (pv.2, pv.1))⟩

/-- Concrete graph for the centroid instance: two positioned vertices at
(lon, lat) = (0, 0) and (2, 2). -/
def centroidGraph : Graph :=
  ⟨[(1, NodeAttrs.full (0, 0) "a" "#808080"),
    (2, NodeAttrs.full (2, 2) "b" "#808080")], [(1, 2)]⟩

/-- Concrete graph with one fully positioned edge and one edge ending in
an attribute-less (dangling) vertex. -/
def danglingGraph : Graph :=
  ⟨[(1, NodeAttrs.full (0, 0) "a" "#808080"),
    (2, NodeAttrs.full (2, 2) "b" "#808080"),
    (3, NodeAttrs.empty)], [(1, 2), (2, 3)]⟩

/-- A route element carries the fields `create_route_graph` reads from it
(`members`, and `tags` once some stop resolves). -/
def routeWF (r : RawElement) : Bool :=
  r.members.isSome && r.tags.isSome

/-- A node record carries the fields `create_route_graph` reads from it
once the record is resolved from a stop member (`tags`, `lat`, `lon`). -/
def nodeWF (e : RawElement) : Bool :=
  e.tags.isSome && e.lat.isSome && e.lon.isSome

/-- Ref `x` resolves in the node mapping to a record carrying the fields
the vertex-creation step reads. -/
def nodeResolvable (nm : List (Int × RawElement)) (x : Int) : Bool :=
  match dictFind x nm with
  | some nd => nodeWF nd
  | none => false

/-- The attribute set the vertex-creation step writes for ref `v`
resolved to record `nd` while processing `route` (total rendering: on the
success path each `getD` hits a present field). -/
def stopAttrs (route nd : RawElement) (v : Int) : NodeAttrs :=
  ⟨some (nd.lon.getD 0, nd.lat.getD 0),
   some ((tagGet "name" (nd.tags.getD [])).getD (toString v)),
   some ((tagGet "colour" (route.tags.getD [])).getD "#808080")⟩

/-- The colour a route stamps on the vertices it contributes: its
`colour` tag, else the default gray. -/
def routeColourD (r : RawElement) : String :=
  (tagGet "colour" (r.tags.getD [])).getD "#808080"

/-! Concrete inputs used for counterexamples and witnesses. -/

/-- A route with stop refs 1 and 2, of which only 1 will resolve. -/
def c1Route : RawElement :=
  ⟨"relation", 100, some [("route", "subway")], none, none,
   some [⟨1, "stop"⟩, ⟨2, "stop"⟩]⟩

/-- A named node with id 1. -/
def c1Node : RawElement :=
  ⟨"node", 1, some [("name", "Alexanderplatz")], some 5, some 6, none⟩

/-- A node record with no `tags` field at all. -/
def tagsLessNode : RawElement := ⟨"node", 3, none, some 9, some 10, none⟩

/-- A route whose single stop resolves to the tags-less node. -/
def c2Route : RawElement :=
  ⟨"relation", 102, some [("route", "subway")], none, none,
   some [⟨3, "stop"⟩]⟩

/-- Three resolvable nodes for the three-stop route instance. -/
def w3Nodes : List RawElement :=
  [⟨"node", 1, some [("name", "A")], some 1, some 2, none⟩,
   ⟨"node", 2, some [], some 3, some 4, none⟩,
   ⟨"node", 3, some [("name", "C")], some 5, some 6, none⟩]

/-- A route whose stop-role members are exactly [1, 2, 3]. -/
def w3Route : RawElement :=
  ⟨"relation", 200, some [("route", "subway"), ("colour", "#0000ff")],
   none, none, some [⟨1, "stop"⟩, ⟨2, "stop"⟩, ⟨3, "stop"⟩]⟩

/-- A red route through stop 7. -/
def w8Red : RawElement :=
  ⟨"relation", 300, some [("route", "subway"), ("colour", "#ff0000")],
   none, none, some [⟨7, "stop"⟩]⟩

/-- A blue route through the same stop 7. -/
def w8Blue : RawElement :=
  ⟨"relation", 301, some [("route", "subway"), ("colour", "#0000ff")],
   none, none, some [⟨7, "stop"⟩]⟩

/-- The shared stop node with id 7. -/
def w8Node : RawElement := ⟨"node", 7, some [("name", "C")], some 1, some 1, none⟩

/-! ## Dictionary lemmas -/

@[simp]
theorem dictFind_insert_self {α : Type} (k : Int) (v : α)
    (d : List (Int × α)) : dictFind k (dictInsert k v d) = some v := by
  induction d with
  | nil => simp [dictInsert, dictFind]
  | cons p rest ih =>
      by_cases h : p.1 = k
      · simp [dictInsert, dictFind, h]
      · simpa [dictInsert, dictFind, h] using ih

theorem dictFind_insert_ne {α : Type} (k k' : Int) (v : α)
    (d : List (Int × α)) (h : k ≠ k') :
    dictFind k' (dictInsert k v d) = dictFind k' d := by
  induction d with
  | nil => simp [dictInsert, dictFind, h]
  | cons p rest ih =>
      obtain ⟨a, b⟩ := p
      by_cases ha : a = k
      · subst ha
        simp [dictInsert, dictFind, h]
      · by_cases ha' : a = k'
        · simp [dictInsert, dictFind, ha, ha', Ne.symm h]
        · simp [dictInsert, dictFind, ha, ha', ih]

theorem dictFind_eq_some_mem {α : Type} {k : Int} {v : α}
    {d : List (Int × α)} (h : dictFind k d = some v) : (k, v) ∈ d := by
  induction d with
  | nil => simp [dictFind] at h
  | cons p rest ih =>
      obtain ⟨a, b⟩ := p
      by_cases ha : a = k
      · subst ha
        simp [dictFind] at h
        subst h
        exact List.mem_cons_self _ _
      · simp only [dictFind, ha, if_false, if_neg] at h
        exact List.mem_cons_of_mem _ (ih h)

/-! ## C6: route-element classification -/

/-- Claim C6: for every RawElement sequence, `extract_route_elements`
returns exactly the subsequence (order preserved) of elements whose tags
field is present and contains a `route` key; an element lacking tags is
never included, and empty input yields empty output. -/
theorem extract_route_elements_spec (l : List RawElement) :
    (extract_route_elements l).Sublist l ∧
    (∀ e, e ∈ extract_route_elements l ↔
      e ∈ l ∧ ∃ t, e.tags = some t ∧ (tagGet "route" t).isSome) ∧
    extract_route_elements [] = [] := by
  refine ⟨List.filter_sublist l, fun e => ?_, rfl⟩
  rw [extract_route_elements, List.mem_filter]
  cases h : e.tags <;> simp [h]

/-! ## C7: node-element classification -/

theorem dictFind_node_foldl (l : List RawElement)
    (d : List (Int × RawElement)) (i : Int) :
    dictFind i (l.foldl
      (fun d e => if e.type = "node" then dictInsert e.id e d else d) d) =
      match l.reverse.find?
          (fun e => decide (e.type = "node") && decide (e.id = i)) with
      | some e => some e
      | none => dictFind i d := by
  induction l generalizing d with
  | nil => simp
  | cons e rest ih =>
      rw [List.foldl_cons, ih, List.reverse_cons, List.find?_append]
      cases hfind : rest.reverse.find?
          (fun e => decide (e.type = "node") && decide (e.id = i)) with
      | some x => simp [Option.or]
      | none =>
          simp only [Option.or, List.find?_cons, List.find?_nil]
          by_cases ht : e.type = "node"
          · by_cases hi : e.id = i
            · simp [ht, hi]
            · simp [ht, hi, dictFind_insert_ne e.id i e d hi]
          · simp [ht]

/-- Claim C7: for every RawElement sequence, `extract_node_elements`
returns a mapping whose key set is exactly the set of ids of elements with
`type == "node"`, and when several such elements share an id, the
mapping's value for that id is the last one in iteration order
(last-writer-wins). -/
theorem extract_node_elements_spec (l : List RawElement) (i : Int) :
    ((dictFind i (extract_node_elements l)).isSome ↔
      ∃ e ∈ l, e.type = "node" ∧ e.id = i) ∧
    dictFind i (extract_node_elements l) =
      l.reverse.find?
        (fun e => decide (e.type = "node") && decide (e.id = i)) := by
  have heq : dictFind i (extract_node_elements l) =
      l.reverse.find?
        (fun e => decide (e.type = "node") && decide (e.id = i)) := by
    rw [extract_node_elements, dictFind_node_foldl]
    cases l.reverse.find?
        (fun e => decide (e.type = "node") && decide (e.id = i)) <;>
      simp [dictFind]
  refine ⟨?_, heq⟩
  rw [heq, List.find?_isSome]
  simp [List.mem_reverse]

/-! ## C5, C9, C10: the folium renderer -/

theorem nodePositions_eq_nil_iff (G : Graph) :
    nodePositions G = [] ↔ ∀ p ∈ G.nodes, p.2.pos = none := by
  simp [nodePositions, List.filterMap_eq_nil_iff, Option.map_eq_none']

/-- Claim C5: `create_folium_map` fails with the empty-graph fault exactly
when no vertex of the input graph carries a position attribute; with at
least one positioned vertex it returns a map without raising. -/
theorem create_folium_map_isOk_iff (G : Graph) (z : Int) :
    (create_folium_map G z).isOk = true ↔
      ∃ p ∈ G.nodes, p.2.pos.isSome := by
  have hiff : (nodePositions G).isEmpty = true ↔
      ∀ p ∈ G.nodes, p.2.pos = none :=
    List.isEmpty_iff.trans (nodePositions_eq_nil_iff G)
  by_cases h : (nodePositions G).isEmpty
  · have hall := hiff.mp h
    simp only [create_folium_map, h, if_true, Except.isOk, Except.toBool,
      Bool.false_eq_true, false_iff, not_exists]
    rintro p ⟨hp, hsome⟩
    rw [hall p hp] at hsome
    simp at hsome
  · have h' : ¬ ∀ p ∈ G.nodes, p.2.pos = none := fun hall => h (hiff.mpr hall)
    push_neg at h'
    obtain ⟨p, hp, hne⟩ := h'
    simp only [create_folium_map, h, if_false, Except.isOk, Except.toBool,
      Bool.false_eq_true, true_iff]
    exact ⟨p, hp, Option.ne_none_iff_isSome.mp hne⟩

/-- Claim C9: for an accepted graph, the map center is the unweighted
arithmetic mean of the positioned vertices' latitudes and of their
longitudes. -/
theorem create_folium_map_center_mean (G : Graph) (z : Int) (m : FoliumMap)
    (h : create_folium_map G z = Except.ok m) :
    m.location.1 * ((nodePositions G).length : ℚ) =
      ((nodePositions G).map fun p => p.2.2).sum ∧
    m.location.2 * ((nodePositions G).length : ℚ) =
      ((nodePositions G).map fun p => p.2.1).sum := by
  by_cases he : (nodePositions G).isEmpty
  · rw [create_folium_map] at h
    simp [he] at h
  · have hne : nodePositions G ≠ [] := fun hnil => by
      rw [hnil] at he; simp at he
    have hlen : ((nodePositions G).length : ℚ) ≠ 0 := by
      rw [Nat.cast_ne_zero, Ne, List.length_eq_zero]
      exact hne
    rw [create_folium_map] at h
    simp only [he, if_false, Except.ok.injEq, Bool.false_eq_true] at h
    subst h
    constructor
    · simpa using div_mul_cancel₀
        ((nodePositions G).map fun p => p.2.2).sum hlen
    · simpa using div_mul_cancel₀
        ((nodePositions G).map fun p => p.2.1).sum hlen

/-- Witness for C9: at the two-vertex graph with positions (0,0) and
(2,2) the computed center is (1,1). -/
theorem create_folium_map_center_mean_witness :
    ∃ m, create_folium_map centroidGraph 12 = Except.ok m ∧
      m.location.1 * ((nodePositions centroidGraph).length : ℚ) =
        ((nodePositions centroidGraph).map fun p => p.2.2).sum ∧
      m.location = (1, 1) := by
  refine ⟨_, rfl, ?_, ?_⟩
  · exact (create_folium_map_center_mean centroidGraph 12 _ rfl).1
  · norm_num [nodePositions, centroidGraph, NodeAttrs.full,
      List.filterMap_cons, Prod.ext_iff]

theorem dictFind_eq_none_of_not_mem {α : Type} {k : Int}
    {l : List (Int × α)} (h : k ∉ l.map Prod.fst) : dictFind k l = none := by
  cases hfind : dictFind k l with
  | none => rfl
  | some v =>
      exact absurd
        (List.mem_map.mpr ⟨(k, v), dictFind_eq_some_mem hfind, rfl⟩) h

theorem dictFind_filterMap_pos (l : List (Int × NodeAttrs))
    (hN : (l.map Prod.fst).Nodup) (u : Int) :
    dictFind u (l.filterMap fun p => p.2.pos.map fun q => (p.1, q)) =
      (dictFind u l).bind NodeAttrs.pos := by
  induction l with
  | nil => simp [dictFind]
  | cons p rest ih =>
      obtain ⟨a, attrs⟩ := p
      rw [List.map_cons, List.nodup_cons] at hN
      obtain ⟨hnotin, hrest⟩ := hN
      cases hpos : attrs.pos with
      | some q =>
          by_cases ha : a = u
          · subst ha
            simp [List.filterMap_cons, hpos, dictFind]
          · simp [List.filterMap_cons, hpos, dictFind, ha, ih hrest]
      | none =>
          by_cases ha : a = u
          · subst ha
            have hnone : dictFind a rest = none :=
              dictFind_eq_none_of_not_mem hnotin
            simp [List.filterMap_cons, hpos, dictFind, ih hrest, hnone]
          · simp [List.filterMap_cons, hpos, dictFind, ha, ih hrest]

theorem dictFind_nodePositions (G : Graph)
    (hN : (G.nodes.map Prod.fst).Nodup) (u : Int) :
    dictFind u (nodePositions G) = vertexPos G u :=
  dictFind_filterMap_pos G.nodes hN u

/-- Claim C10: for an accepted graph, the polylines drawn on the map are
exactly the graph edges both of whose endpoints carry a `pos` attribute;
an edge with an attribute-less endpoint is silently omitted. -/
theorem create_folium_map_polylines (G : Graph) (z : Int) (m : FoliumMap)
    (hN : (G.nodes.map Prod.fst).Nodup)
    (h : create_folium_map G z = Except.ok m) :
    (∀ u v pu pv, (u, v) ∈ G.edges → vertexPos G u = some pu →
      vertexPos G v = some pv → edgeLine pu pv ∈ m.polylines) ∧
    (∀ pl ∈ m.polylines, ∃ u v, (u, v) ∈ G.edges ∧ ∃ pu pv,
      vertexPos G u = some pu ∧ vertexPos G v = some pv ∧
      pl = edgeLine pu pv) := by
  by_cases he : (nodePositions G).isEmpty
  · rw [create_folium_map] at h
    simp [he] at h
  · rw [create_folium_map] at h
    simp only [he, if_false, Except.ok.injEq, Bool.false_eq_true] at h
    subst h
    have hpos : ∀ w, dictFind w (nodePositions G) = vertexPos G w :=
      dictFind_nodePositions G hN
    constructor
    · intro u v pu pv hmem hu hv
      refine List.mem_filterMap.mpr ⟨(u, v), hmem, ?_⟩
      simp only [hpos, hu, hv]
      rfl
    · intro pl hpl
      obtain ⟨e, hmem, hfe⟩ := List.mem_filterMap.mp hpl
      obtain ⟨u, v⟩ := e
      simp only [hpos] at hfe
      cases hu : vertexPos G u with
      | none => rw [hu] at hfe; simp at hfe
      | some pu =>
          cases hv : vertexPos G v with
          | none => rw [hu, hv] at hfe; simp at hfe
          | some pv =>
              rw [hu, hv] at hfe
              simp only [Option.some_inj] at hfe
              exact ⟨u, v, hmem, pu, pv, hu, hv, hfe.symm⟩

/-- Witness for C10 at a graph with a positioned edge and an edge into a
dangling attribute-less vertex: the positioned edge is drawn. -/
theorem create_folium_map_polylines_witness :
    ∃ m, create_folium_map danglingGraph 12 = Except.ok m ∧
      edgeLine (0, 0) (2, 2) ∈ m.polylines := by
  refine ⟨_, rfl, ?_⟩
  exact (create_folium_map_polylines danglingGraph 12 _ (by decide) rfl).1
    1 2 (0, 0) (2, 2) (by decide) (by decide) (by decide)

/-! ## Graph-builder infrastructure -/

theorem exceptBind_ok {ε α β : Type} {x : Except ε α} {f : α → Except ε β}
    {c : β} (h : (x >>= f) = Except.ok c) :
    ∃ b, x = Except.ok b ∧ f b = Except.ok c := by
  cases x with
  | error e => simp [Bind.bind, Except.bind] at h
  | ok b => exact ⟨b, rfl, by simpa [Bind.bind, Except.bind] using h⟩

theorem dictFind_isSome_iff {α : Type} (k : Int) (l : List (Int × α)) :
    (dictFind k l).isSome = true ↔ k ∈ l.map Prod.fst := by
  induction l with
  | nil => simp [dictFind]
  | cons p rest ih =>
      obtain ⟨a, b⟩ := p
      by_cases ha : a = k
      · simp [dictFind, ha]
      · simp [dictFind, ha, ih, Ne.symm ha]

theorem dictFind_append_some {α : Type} {k : Int} {l₁ : List (Int × α)}
    {a : α} (l₂ : List (Int × α)) (h : dictFind k l₁ = some a) :
    dictFind k (l₁ ++ l₂) = some a := by
  induction l₁ with
  | nil => simp [dictFind] at h
  | cons p rest ih =>
      obtain ⟨x, y⟩ := p
      by_cases hx : x = k
      · simp only [dictFind, hx, if_pos] at h ⊢
        exact h
      · simp only [List.cons_append, dictFind, hx, if_false, if_neg] at h ⊢
        exact ih h

theorem dictFind_eq_none_of_keys_ne {α : Type} {k : Int}
    {l : List (Int × α)} (h : ∀ p ∈ l, Prod.fst p ≠ k) :
    dictFind k l = none := by
  induction l with
  | nil => rfl
  | cons p rest ih =>
      obtain ⟨a, b⟩ := p
      simp only [List.mem_cons, forall_eq_or_imp] at h
      simp only [dictFind, h.1, if_false, if_neg]
      exact ih h.2

theorem dictFind_append_of_keys_ne {α : Type} {k : Int}
    (l₁ : List (Int × α)) {l₂ : List (Int × α)}
    (h : ∀ p ∈ l₂, Prod.fst p ≠ k) :
    dictFind k (l₁ ++ l₂) = dictFind k l₁ := by
  induction l₁ with
  | nil => simpa [dictFind] using dictFind_eq_none_of_keys_ne h
  | cons p rest ih =>
      obtain ⟨a, b⟩ := p
      by_cases ha : a = k
      · simp [dictFind, ha]
      · simp [dictFind, ha, ih]

theorem mem_keys_dictInsert {α : Type} (k j : Int) (v : α)
    (d : List (Int × α)) :
    j ∈ (dictInsert k v d).map Prod.fst ↔ j = k ∨ j ∈ d.map Prod.fst := by
  induction d with
  | nil => simp [dictInsert]
  | cons p rest ih =>
      obtain ⟨a, b⟩ := p
      by_cases ha : a = k
      · subst ha
        simp [dictInsert]
      · simp only [dictInsert, ha, if_false, if_neg, List.map_cons,
          List.mem_cons, ih]
        tauto

theorem add_node_edges (G : Graph) (r : Int) (a : NodeAttrs) :
    (G.add_node r a).edges = G.edges := rfl

/-- `add_edge` either keeps the edge list or appends the new pair. -/
theorem add_edge_edges (G : Graph) (u v : Int) :
    (G.add_edge u v).edges = G.edges ∨
    (G.add_edge u v).edges = G.edges ++ [(u, v)] := by
  simp only [Graph.add_edge]
  split_ifs <;> simp

theorem hasEdge_congr_edges {G G' : Graph} (h : G'.edges = G.edges)
    (u v : Int) : G'.hasEdge u v = G.hasEdge u v := by
  rw [Graph.hasEdge, Graph.hasEdge, h]

theorem hasEdge_add_edge_mono {G : Graph} {a b : Int} (u v : Int)
    (h : G.hasEdge a b = true) : (G.add_edge u v).hasEdge a b = true := by
  rcases add_edge_edges G u v with he | he
  · rwa [hasEdge_congr_edges he]
  · rw [Graph.hasEdge, he, List.any_append]
    rw [Graph.hasEdge] at h
    simp [h]

theorem hasEdge_add_edge_self (G : Graph) (u v : Int) :
    (G.add_edge u v).hasEdge u v = true := by
  simp only [Graph.add_edge]
  split_ifs <;> first | assumption | simp [Graph.hasEdge]

theorem add_edge_edges_length (G : Graph) (u v : Int) :
    (G.add_edge u v).edges.length ≤ G.edges.length + 1 := by
  rcases add_edge_edges G u v with he | he <;> rw [he] <;> simp

/-- `add_edge` only ever appends entries, keyed by its endpoints, to the
node dict. -/
theorem add_edge_nodes_ext (G : Graph) (u v : Int) :
    ∃ ext, (G.add_edge u v).nodes = G.nodes ++ ext ∧
      ∀ p ∈ ext, Prod.fst p = u ∨ Prod.fst p = v := by
  simp only [Graph.add_edge]
  split_ifs
  · exact ⟨[], (List.append_nil _).symm, by simp⟩
  · exact ⟨[], (List.append_nil _).symm, by simp⟩
  · exact ⟨[(v, NodeAttrs.empty)], rfl, by simp⟩
  · exact ⟨[(v, NodeAttrs.empty)], rfl, by simp⟩
  · exact ⟨[(u, NodeAttrs.empty)], rfl, by simp⟩
  · exact ⟨[(u, NodeAttrs.empty)], rfl, by simp⟩
  · exact ⟨[(u, NodeAttrs.empty), (v, NodeAttrs.empty)], by simp, by simp⟩
  · exact ⟨[(u, NodeAttrs.empty), (v, NodeAttrs.empty)], by simp, by simp⟩

theorem dictFind_add_edge_of_some {G : Graph} {w : Int} {a : NodeAttrs}
    (u v : Int) (h : dictFind w G.nodes = some a) :
    dictFind w (G.add_edge u v).nodes = some a := by
  obtain ⟨ext, hn, -⟩ := add_edge_nodes_ext G u v
  rw [hn]
  exact dictFind_append_some ext h

theorem dictFind_add_edge_ne {G : Graph} {w : Int} (u v : Int)
    (hu : u ≠ w) (hv : v ≠ w) :
    dictFind w (G.add_edge u v).nodes = dictFind w G.nodes := by
  obtain ⟨ext, hn, hext⟩ := add_edge_nodes_ext G u v
  rw [hn]
  refine dictFind_append_of_keys_ne G.nodes fun p hp => ?_
  rcases hext p hp with h | h <;> rw [h] <;> assumption

theorem addEdgesAlong_hasEdge_mono {a b : Int} (l : List Int) (G : Graph)
    (h : G.hasEdge a b = true) : (addEdgesAlong G l).hasEdge a b = true := by
  induction l generalizing G with
  | nil => simpa [addEdgesAlong] using h
  | cons u rest ih =>
      cases rest with
      | nil => simpa [addEdgesAlong] using h
      | cons w rest' =>
          rw [addEdgesAlong]
          exact ih (G.add_edge u w) (hasEdge_add_edge_mono u w h)

theorem addEdgesAlong_hasEdge_adjacent (l : List Int) (G : Graph)
    (i : Nat) (hi : i + 1 < l.length) :
    (addEdgesAlong G l).hasEdge (l.get ⟨i, by omega⟩)
      (l.get ⟨i + 1, hi⟩) = true := by
  induction l generalizing G i with
  | nil => simp at hi
  | cons u rest ih =>
      cases rest with
      | nil => simp at hi
      | cons w rest' =>
          rw [addEdgesAlong]
          cases i with
          | zero =>
              exact addEdgesAlong_hasEdge_mono _ _
                (hasEdge_add_edge_self G u w)
          | succ j =>
              have hj : j + 1 < (w :: rest').length := by
                simpa using hi
              exact ih (G.add_edge u w) j hj

theorem addEdgesAlong_edges_length (l : List Int) (G : Graph) :
    (addEdgesAlong G l).edges.length ≤ G.edges.length + (l.length - 1) := by
  induction l generalizing G with
  | nil => simp [addEdgesAlong]
  | cons u rest ih =>
      cases rest with
      | nil => simp [addEdgesAlong]
      | cons w rest' =>
          rw [addEdgesAlong]
          have h1 := add_edge_edges_length G u w
          have h2 := ih (G.add_edge u w)
          simp only [List.length_cons] at *
          omega

theorem addEdgesAlong_dictFind_some {w : Int} {a : NodeAttrs}
    (l : List Int) (G : Graph) (h : dictFind w G.nodes = some a) :
    dictFind w (addEdgesAlong G l).nodes = some a := by
  induction l generalizing G with
  | nil => simpa [addEdgesAlong] using h
  | cons u rest ih =>
      cases rest with
      | nil => simpa [addEdgesAlong] using h
      | cons x rest' =>
          rw [addEdgesAlong]
          exact ih (G.add_edge u x) (dictFind_add_edge_of_some u x h)

theorem addEdgesAlong_dictFind_ne {w : Int} (l : List Int) (G : Graph)
    (hl : ∀ u ∈ l, u ≠ w) :
    dictFind w (addEdgesAlong G l).nodes = dictFind w G.nodes := by
  induction l generalizing G with
  | nil => simp [addEdgesAlong]
  | cons u rest ih =>
      cases rest with
      | nil => simp [addEdgesAlong]
      | cons x rest' =>
          rw [addEdgesAlong]
          rw [ih (G.add_edge u x) fun y hy => hl y (List.mem_cons_of_mem u hy)]
          exact dictFind_add_edge_ne u x (hl u (List.mem_cons_self u _))
            (hl x (List.mem_cons_of_mem u (List.mem_cons_self x _)))

@[simp]
theorem exceptOkBind {ε α β : Type} (a : α) (f : α → Except ε β) :
    (Except.ok a >>= f : Except ε β) = f a := rfl

@[simp]
theorem exceptErrorBind {ε α β : Type} (e : ε) (f : α → Except ε β) :
    ((Except.error e : Except ε α) >>= f) = Except.error e := rfl

/-- Inversion for the vertex-creation step: either the ref misses the
node mapping and the graph is unchanged, or all read fields are present
and the vertex is written with the documented attributes. -/
theorem addStopVertex_ok_inv {nm : List (Int × RawElement)}
    {r : RawElement} {G G' : Graph} {m : Member}
    (h : addStopVertex nm r G m = Except.ok G') :
    (dictFind m.ref nm = none ∧ G' = G) ∨
    (∃ nd, dictFind m.ref nm = some nd ∧ nd.tags.isSome ∧ r.tags.isSome ∧
      nd.lat.isSome ∧ nd.lon.isSome ∧
      G' = G.add_node m.ref (stopAttrs r nd m.ref)) := by
  rw [addStopVertex] at h
  cases hfind : dictFind m.ref nm with
  | none =>
      simp only [hfind, Except.ok.injEq] at h
      exact Or.inl ⟨rfl, h.symm⟩
  | some nd =>
      simp only [hfind] at h
      cases htags : nd.tags with
      | none => rw [htags] at h; simp [getField] at h
      | some ndTags =>
          rw [htags] at h
          simp only [getField, exceptOkBind] at h
          cases hrt : r.tags with
          | none => rw [hrt] at h; simp [getField] at h
          | some rTags =>
              rw [hrt] at h
              simp only [getField, exceptOkBind] at h
              cases hlon : nd.lon with
              | none => rw [hlon] at h; simp [getField] at h
              | some lon =>
                  rw [hlon] at h
                  simp only [getField, exceptOkBind] at h
                  cases hlat : nd.lat with
                  | none => rw [hlat] at h; simp [getField] at h
                  | some lat =>
                      rw [hlat] at h
                      simp only [getField, exceptOkBind, Except.ok.injEq] at h
                      refine Or.inr ⟨nd, rfl, by simp [htags], by simp [hrt],
                        by simp [hlat], by simp [hlon], ?_⟩
                      rw [← h]
                      simp [stopAttrs, NodeAttrs.full, htags, hrt, hlon, hlat]

theorem addStopVertex_isOk {nm : List (Int × RawElement)} {r : RawElement}
    (G : Graph) (m : Member) (hr : r.tags.isSome = true)
    (hn : ∀ nd, dictFind m.ref nm = some nd → nodeWF nd = true) :
    ∃ G', addStopVertex nm r G m = Except.ok G' := by
  cases hfind : dictFind m.ref nm with
  | none => exact ⟨G, by rw [addStopVertex, hfind]⟩
  | some nd =>
      have hwf := hn nd hfind
      rw [nodeWF, Bool.and_eq_true, Bool.and_eq_true] at hwf
      obtain ⟨⟨ht, hlat⟩, hlon⟩ := hwf
      obtain ⟨ndTags, ht⟩ := Option.isSome_iff_exists.mp ht
      obtain ⟨rTags, hrt⟩ := Option.isSome_iff_exists.mp hr
      obtain ⟨lat, hlat⟩ := Option.isSome_iff_exists.mp hlat
      obtain ⟨lon, hlon⟩ := Option.isSome_iff_exists.mp hlon
      refine ⟨G.add_node m.ref (NodeAttrs.full (lon, lat)
        ((tagGet "name" ndTags).getD (toString m.ref))
        ((tagGet "colour" rTags).getD "#808080")), ?_⟩
      rw [addStopVertex]
      simp only [hfind, ht, hrt, hlat, hlon, getField, exceptOkBind]

theorem addStopVertex_edges {nm : List (Int × RawElement)} {r : RawElement}
    {G G' : Graph} {m : Member}
    (h : addStopVertex nm r G m = Except.ok G') : G'.edges = G.edges := by
  rcases addStopVertex_ok_inv h with ⟨-, rfl⟩ | ⟨nd, -, -, -, -, -, rfl⟩
  · rfl
  · rfl

theorem add_node_nodes (G : Graph) (r : Int) (a : NodeAttrs) :
    (G.add_node r a).nodes = dictInsert r a G.nodes := rfl

theorem foldStops_isOk {nm : List (Int × RawElement)} {r : RawElement}
    (l : List Member) (G : Graph) (hr : r.tags.isSome = true)
    (hn : ∀ p ∈ nm, nodeWF p.2 = true) :
    ∃ G', l.foldlM (addStopVertex nm r) G = Except.ok G' := by
  induction l generalizing G with
  | nil => exact ⟨G, rfl⟩
  | cons m rest ih =>
      obtain ⟨G1, hG1⟩ := addStopVertex_isOk G m hr
        fun nd hnd => hn (m.ref, nd) (dictFind_eq_some_mem hnd)
      obtain ⟨G', hG'⟩ := ih G1
      exact ⟨G', by rw [List.foldlM_cons, hG1, exceptOkBind, hG']⟩

theorem foldStops_edges {nm : List (Int × RawElement)} {r : RawElement}
    (l : List Member) : ∀ G G',
    l.foldlM (addStopVertex nm r) G = Except.ok G' → G'.edges = G.edges := by
  induction l with
  | nil =>
      intro G G' h
      rw [List.foldlM_nil] at h
      injection h with h
      rw [h]
  | cons m rest ih =>
      intro G G' h
      rw [List.foldlM_cons] at h
      obtain ⟨G1, h1, h2⟩ := exceptBind_ok h
      rw [ih G1 G' h2, addStopVertex_edges h1]

theorem foldStops_sets {nm : List (Int × RawElement)} {r : RawElement}
    {v : Int} {nd : RawElement} (hnd : dictFind v nm = some nd)
    (l : List Member) : ∀ G G',
    l.foldlM (addStopVertex nm r) G = Except.ok G' →
    ((∃ m ∈ l, Member.ref m = v) ∨
      dictFind v G.nodes = some (stopAttrs r nd v)) →
    dictFind v G'.nodes = some (stopAttrs r nd v) := by
  induction l with
  | nil =>
      intro G G' h hd
      rcases hd with ⟨m, hm, -⟩ | hsome
      · exact absurd hm (List.not_mem_nil m)
      · rw [List.foldlM_nil] at h
        injection h with h
        rw [← h]
        exact hsome
  | cons m rest ih =>
      intro G G' h hd
      rw [List.foldlM_cons] at h
      obtain ⟨G1, h1, h2⟩ := exceptBind_ok h
      apply ih G1 G' h2
      rcases addStopVertex_ok_inv h1 with ⟨hnone, rfl⟩ |
        ⟨nd', hfind', -, -, -, -, rfl⟩
      · rcases hd with ⟨m', hm', href⟩ | hsome
        · rcases List.mem_cons.mp hm' with rfl | hm'rest
          · rw [href, hnd] at hnone
            cases hnone
          · exact Or.inl ⟨m', hm'rest, href⟩
        · exact Or.inr hsome
      · by_cases hmv : m.ref = v
        · have hnd' : nd' = nd := by
            rw [hmv, hnd] at hfind'
            exact (Option.some_inj.mp hfind').symm
          subst hnd'
          right
          rw [add_node_nodes, hmv, dictFind_insert_self]
        · have hpres : dictFind v (G.add_node m.ref
              (stopAttrs r nd' m.ref)).nodes = dictFind v G.nodes := by
            rw [add_node_nodes]
            exact dictFind_insert_ne _ _ _ _ hmv
          rcases hd with ⟨m', hm', href⟩ | hsome
          · rcases List.mem_cons.mp hm' with rfl | hm'rest
            · exact absurd href hmv
            · exact Or.inl ⟨m', hm'rest, href⟩
          · exact Or.inr (hpres.trans hsome)

theorem foldStops_preserve {nm : List (Int × RawElement)} {r : RawElement}
    {v : Int} (l : List Member) (hl : ∀ m ∈ l, Member.ref m ≠ v) :
    ∀ G G', l.foldlM (addStopVertex nm r) G = Except.ok G' →
    dictFind v G'.nodes = dictFind v G.nodes := by
  induction l with
  | nil =>
      intro G G' h
      rw [List.foldlM_nil] at h
      injection h with h
      rw [h]
  | cons m rest ih =>
      intro G G' h
      rw [List.foldlM_cons] at h
      obtain ⟨G1, h1, h2⟩ := exceptBind_ok h
      have hrest := ih (fun m' hm' => hl m' (List.mem_cons_of_mem m hm'))
        G1 G' h2
      rcases addStopVertex_ok_inv h1 with ⟨-, rfl⟩ |
        ⟨nd', -, -, -, -, -, rfl⟩
      · exact hrest
      · rw [hrest, add_node_nodes]
        exact dictFind_insert_ne _ _ _ _ (hl m (List.mem_cons_self m rest))

/-- Inversion for one route iteration: `members` must be present, the
vertex loop must succeed, and the edge walk is appended. -/
theorem processRoute_ok_inv {nm : List (Int × RawElement)} {G G' : Graph}
    {r : RawElement} (h : processRoute nm G r = Except.ok G') :
    ∃ ms G1, r.members = some ms ∧
      (stopMembers ms).foldlM (addStopVertex nm r) G = Except.ok G1 ∧
      G' = addEdgesAlong G1 ((stopMembers ms).map Member.ref) := by
  rw [processRoute] at h
  cases hm : r.members with
  | none => rw [hm] at h; simp [getField] at h
  | some ms =>
      rw [hm] at h
      simp only [getField, exceptOkBind] at h
      obtain ⟨G1, h1, h2⟩ := exceptBind_ok h
      refine ⟨ms, G1, rfl, h1, ?_⟩
      injection h2 with h2
      exact h2.symm

theorem processRoute_isOk {nm : List (Int × RawElement)} {r : RawElement}
    (G : Graph) (hr : routeWF r = true)
    (hn : ∀ p ∈ nm, nodeWF p.2 = true) :
    ∃ G', processRoute nm G r = Except.ok G' := by
  rw [routeWF, Bool.and_eq_true] at hr
  obtain ⟨hmem, htags⟩ := hr
  obtain ⟨ms, hm⟩ := Option.isSome_iff_exists.mp hmem
  obtain ⟨G1, h1⟩ := foldStops_isOk (stopMembers ms) G htags hn
  refine ⟨addEdgesAlong G1 ((stopMembers ms).map Member.ref), ?_⟩
  rw [processRoute]
  simp only [hm, getField, exceptOkBind, h1]

theorem processRoute_hasEdge_mono {nm : List (Int × RawElement)}
    {G G' : Graph} {r : RawElement} {a b : Int}
    (h : processRoute nm G r = Except.ok G')
    (he : G.hasEdge a b = true) : G'.hasEdge a b = true := by
  obtain ⟨ms, G1, hm, h1, rfl⟩ := processRoute_ok_inv h
  have hedges := foldStops_edges (stopMembers ms) G G1 h1
  refine addEdgesAlong_hasEdge_mono _ _ ?_
  rw [hasEdge_congr_edges hedges]
  exact he

theorem processRoute_adjacent {nm : List (Int × RawElement)}
    {G G' : Graph} {r : RawElement} (h : processRoute nm G r = Except.ok G')
    {ms : List Member} (hm : r.members = some ms) (i : Nat)
    (hi : i + 1 < (stopMembers ms).length) :
    G'.hasEdge ((stopMembers ms).get ⟨i, by omega⟩).ref
      ((stopMembers ms).get ⟨i + 1, hi⟩).ref = true := by
  obtain ⟨ms', G1, hm', h1, rfl⟩ := processRoute_ok_inv h
  rw [hm] at hm'
  injection hm' with hm'
  subst hm'
  have hlen : i + 1 < ((stopMembers ms).map Member.ref).length := by
    simpa using hi
  have := addEdgesAlong_hasEdge_adjacent ((stopMembers ms).map Member.ref)
    G1 i hlen
  simpa [List.get_eq_getElem, List.getElem_map] using this

theorem processRoute_edges_le {nm : List (Int × RawElement)}
    {G G' : Graph} {r : RawElement}
    (h : processRoute nm G r = Except.ok G') :
    G'.edges.length ≤ G.edges.length +
      ((stopMembers (r.members.getD [])).length - 1) := by
  obtain ⟨ms, G1, hm, h1, rfl⟩ := processRoute_ok_inv h
  have hedges : G1.edges = G.edges := foldStops_edges (stopMembers ms) G G1 h1
  have hlen := addEdgesAlong_edges_length ((stopMembers ms).map Member.ref) G1
  rw [hedges, List.length_map] at hlen
  rw [hm]
  simpa using hlen

theorem processRoute_sets {nm : List (Int × RawElement)} {G G' : Graph}
    {r : RawElement} {v : Int} (h : processRoute nm G r = Except.ok G')
    {ms : List Member} (hm : r.members = some ms) {m : Member}
    (hmem : m ∈ stopMembers ms) (hv : m.ref = v) {nd : RawElement}
    (hnd : dictFind v nm = some nd) :
    dictFind v G'.nodes = some (stopAttrs r nd v) := by
  obtain ⟨ms', G1, hm', h1, rfl⟩ := processRoute_ok_inv h
  rw [hm] at hm'
  injection hm' with hm'
  subst hm'
  have h2 : dictFind v G1.nodes = some (stopAttrs r nd v) :=
    foldStops_sets hnd (stopMembers ms) G G1 h1 (Or.inl ⟨m, hmem, hv⟩)
  exact addEdgesAlong_dictFind_some _ _ h2

theorem processRoute_preserve {nm : List (Int × RawElement)} {G G' : Graph}
    {r : RawElement} {v : Int} (h : processRoute nm G r = Except.ok G')
    (hno : ∀ ms, r.members = some ms →
      ∀ m ∈ stopMembers ms, Member.ref m ≠ v) :
    dictFind v G'.nodes = dictFind v G.nodes := by
  obtain ⟨ms, G1, hm, h1, rfl⟩ := processRoute_ok_inv h
  have hns := hno ms hm
  have hrefs : ∀ u ∈ (stopMembers ms).map Member.ref, u ≠ v := by
    intro u hu
    obtain ⟨m, hm', rfl⟩ := List.mem_map.mp hu
    exact hns m hm'
  rw [addEdgesAlong_dictFind_ne _ _ hrefs]
  exact foldStops_preserve (stopMembers ms) hns G G1 h1

theorem foldRoutes_hasEdge_mono {nm : List (Int × RawElement)} {a b : Int}
    (l : List RawElement) : ∀ G G',
    l.foldlM (processRoute nm) G = Except.ok G' →
    G.hasEdge a b = true → G'.hasEdge a b = true := by
  induction l with
  | nil =>
      intro G G' h he
      rw [List.foldlM_nil] at h
      injection h with h
      rw [← h]
      exact he
  | cons r rest ih =>
      intro G G' h he
      rw [List.foldlM_cons] at h
      obtain ⟨G1, h1, h2⟩ := exceptBind_ok h
      exact ih G1 G' h2 (processRoute_hasEdge_mono h1 he)

theorem foldRoutes_preserve {nm : List (Int × RawElement)} {v : Int}
    (l : List RawElement)
    (hno : ∀ r ∈ l, ∀ ms, r.members = some ms →
      ∀ m ∈ stopMembers ms, Member.ref m ≠ v) : ∀ G G',
    l.foldlM (processRoute nm) G = Except.ok G' →
    dictFind v G'.nodes = dictFind v G.nodes := by
  induction l with
  | nil =>
      intro G G' h
      rw [List.foldlM_nil] at h
      injection h with h
      rw [h]
  | cons r rest ih =>
      intro G G' h
      rw [List.foldlM_cons] at h
      obtain ⟨G1, h1, h2⟩ := exceptBind_ok h
      have hrest := ih (fun r' hr' => hno r' (List.mem_cons_of_mem r hr'))
        G1 G' h2
      rw [hrest]
      exact processRoute_preserve h1 (hno r (List.mem_cons_self r rest))

theorem foldRoutes_edges_le {nm : List (Int × RawElement)}
    (l : List RawElement) : ∀ G G',
    l.foldlM (processRoute nm) G = Except.ok G' →
    G'.edges.length ≤ G.edges.length +
      (l.map fun r => (stopMembers (r.members.getD [])).length - 1).sum := by
  induction l with
  | nil =>
      intro G G' h
      rw [List.foldlM_nil] at h
      injection h with h
      rw [h]
      simp
  | cons r rest ih =>
      intro G G' h
      rw [List.foldlM_cons] at h
      obtain ⟨G1, h1, h2⟩ := exceptBind_ok h
      have hr := processRoute_edges_le h1
      have hrest := ih G1 G' h2
      rw [List.map_cons, List.sum_cons]
      omega

/-! ## C2: totality on well-formed data, and the KeyError counterexample -/

/-- Counterexample to C2 as stated: a stop member that resolves to a node
record carrying no `tags` field at all makes `create_route_graph` raise a
KeyError-kind fault instead of falling back to a default. -/
theorem create_route_graph_no_tags_fault :
    create_route_graph [c2Route] (extract_node_elements [tagsLessNode]) =
      Except.error "KeyError: tags" := rfl

/-- Claim C2 (amended): `create_route_graph` raises no fault and returns
a graph whenever every route element carries its `members` and `tags`
fields and every record in the node mapping carries `tags`, `lat` and
`lon`; a missing `name` or `colour` key inside a present tag map is
resolved by the documented fallbacks, never by a fault.  (As stated the
claim is false: a resolved node record with no tags field at all faults,
see the counterexample.) -/
theorem create_route_graph_total (routes : List RawElement)
    (nm : List (Int × RawElement))
    (hr : ∀ r ∈ routes, routeWF r = true)
    (hn : ∀ p ∈ nm, nodeWF p.2 = true) :
    ∃ G, create_route_graph routes nm = Except.ok G := by
  rw [create_route_graph]
  suffices h : ∀ G0, ∃ G, routes.foldlM (processRoute nm) G0 = Except.ok G
    from h Graph.emptyGraph
  induction routes with
  | nil => exact fun G0 => ⟨G0, rfl⟩
  | cons r rest ih =>
      intro G0
      obtain ⟨G1, h1⟩ := processRoute_isOk G0
        (hr r (List.mem_cons_self r rest)) hn
      obtain ⟨G, hG⟩ := ih (fun r' hr' => hr r' (List.mem_cons_of_mem r hr'))
        G1
      exact ⟨G, by rw [List.foldlM_cons, h1, exceptOkBind, hG]⟩

/-- Witness for C2: a well-formed route over a partially resolvable node
mapping yields a graph without a fault. -/
theorem create_route_graph_total_witness :
    (∀ r ∈ [c1Route], routeWF r = true) ∧
    (∀ p ∈ extract_node_elements [c1Node], nodeWF p.2 = true) ∧
    ∃ G, create_route_graph [c1Route] (extract_node_elements [c1Node]) =
      Except.ok G :=
  ⟨by decide, by decide,
    create_route_graph_total [c1Route] (extract_node_elements [c1Node])
      (by decide) (by decide)⟩

/-! ## C1: the vertex-set guarantee is broken by edge insertion -/

/-- C1 fails on the code: at this input, ref 2 is absent from the node
mapping, yet the returned graph contains a vertex 2 — fabricated without
attributes by the edge-insertion step. -/
theorem create_route_graph_dangling_vertex :
    ∃ G, create_route_graph [c1Route] (extract_node_elements [c1Node]) =
        Except.ok G ∧
      dictFind 2 (extract_node_elements [c1Node]) = none ∧
      G.hasNode 2 = true ∧
      dictFind 2 G.nodes = some NodeAttrs.empty := by
  refine ⟨_, rfl, by decide, by decide, by decide⟩

/-! ## C4: adjacent-pair edges, regardless of vertex creation -/

/-- Claim C4: every adjacent pair of a route's stop-role member
subsequence contributes an edge between the members' refs — whether or
not those refs became vertices — and each route contributes at most
`len(stop_members) - 1` edges. -/
theorem create_route_graph_edges (routes : List RawElement)
    (nm : List (Int × RawElement)) (G : Graph)
    (h : create_route_graph routes nm = Except.ok G) :
    (∀ r ∈ routes, ∀ ms, r.members = some ms →
      ∀ i : Nat, ∀ hi : i + 1 < (stopMembers ms).length,
        G.hasEdge ((stopMembers ms).get ⟨i, by omega⟩).ref
          ((stopMembers ms).get ⟨i + 1, hi⟩).ref = true) ∧
    G.edges.length ≤
      (routes.map fun r => (stopMembers (r.members.getD [])).length - 1).sum := by
  rw [create_route_graph] at h
  constructor
  · intro r hr ms hm i hi
    obtain ⟨pre, post, rfl⟩ := List.append_of_mem hr
    rw [List.foldlM_append] at h
    obtain ⟨G1, h1, h2⟩ := exceptBind_ok h
    rw [List.foldlM_cons] at h2
    obtain ⟨G2, h2a, h2b⟩ := exceptBind_ok h2
    exact foldRoutes_hasEdge_mono post G2 G h2b
      (processRoute_adjacent h2a hm i hi)
  · have := foldRoutes_edges_le routes Graph.emptyGraph G h
    simpa [Graph.emptyGraph] using this

/-- Witness for C4 at the one-route input: the edge (1, 2) exists and at
most one edge was contributed. -/
theorem create_route_graph_edges_witness :
    ∃ G, create_route_graph [c1Route] (extract_node_elements [c1Node]) =
        Except.ok G ∧
      G.hasEdge 1 2 = true ∧ G.edges.length ≤ 1 := by
  refine ⟨_, rfl, ?_, ?_⟩
  · exact (create_route_graph_edges [c1Route]
      (extract_node_elements [c1Node]) _ rfl).1 c1Route (by decide)
      [⟨1, "stop"⟩, ⟨2, "stop"⟩] rfl 0 (by decide)
  · simpa using (create_route_graph_edges [c1Route]
      (extract_node_elements [c1Node]) _ rfl).2

/-! ## C8: last-writer-wins vertex colour -/

/-- Claim C8: the colour attribute of a vertex equals the `colour` tag of
the last-processed route that contributed it (default gray `#808080`
when that route has no `colour` tag) — later routes not contributing the
vertex leave it alone, and the last contributor overwrites, not blends. -/
theorem create_route_graph_colour_last_writer (pre post : List RawElement)
    (r : RawElement) (nm : List (Int × RawElement)) (G : Graph)
    (h : create_route_graph (pre ++ r :: post) nm = Except.ok G)
    (v : Int) (ms : List Member) (hm : r.members = some ms)
    (m : Member) (hmem : m ∈ stopMembers ms) (hv : m.ref = v)
    (nd : RawElement) (hnd : dictFind v nm = some nd)
    (hpost : ∀ r' ∈ post, ∀ ms', r'.members = some ms' →
      ∀ m' ∈ stopMembers ms', Member.ref m' ≠ v) :
    ∃ attrs, dictFind v G.nodes = some attrs ∧
      attrs.colour = some (routeColourD r) := by
  rw [create_route_graph, List.foldlM_append] at h
  obtain ⟨G1, h1, h2⟩ := exceptBind_ok h
  rw [List.foldlM_cons] at h2
  obtain ⟨G2, h2a, h2b⟩ := exceptBind_ok h2
  have hset : dictFind v G2.nodes = some (stopAttrs r nd v) :=
    processRoute_sets h2a hm hmem hv hnd
  have hkeep : dictFind v G.nodes = dictFind v G2.nodes :=
    foldRoutes_preserve post hpost G2 G h2b
  refine ⟨stopAttrs r nd v, hkeep.trans hset, ?_⟩
  rw [stopAttrs, routeColourD]

/-- Witness for C8: two routes with different colours share stop 7; the
final colour is the second route's blue, not the first route's red. -/
theorem create_route_graph_colour_witness :
    ∃ G, create_route_graph [w8Red, w8Blue] (extract_node_elements [w8Node]) =
        Except.ok G ∧
      ∃ attrs, dictFind 7 G.nodes = some attrs ∧
        attrs.colour = some (routeColourD w8Blue) ∧
        routeColourD w8Blue = "#0000ff" ∧ routeColourD w8Red = "#ff0000" := by
  refine ⟨_, rfl, ?_⟩
  obtain ⟨attrs, h1, h2⟩ := create_route_graph_colour_last_writer
    [w8Red] [] w8Blue (extract_node_elements [w8Node]) _ rfl 7
    [⟨7, "stop"⟩] rfl ⟨7, "stop"⟩ (by decide) rfl w8Node (by decide)
    (by simp)
  exact ⟨attrs, h1, h2, by decide, by decide⟩

/-! ## C3: one route with three resolvable stops -/

theorem add_edge_nodes_of_present {G : Graph} {u v : Int}
    (hu : (dictFind u G.nodes).isSome = true)
    (hv : (dictFind v G.nodes).isSome = true) :
    (G.add_edge u v).nodes = G.nodes := by
  simp [Graph.add_edge, hu, hv, apply_ite Graph.nodes]

theorem add_edge_edges_true {G : Graph} {u v : Int}
    (h : G.hasEdge u v = true) : (G.add_edge u v).edges = G.edges := by
  simp only [Graph.add_edge]
  split_ifs <;>
    first
      | rfl
      | (rename_i hcond
         exact absurd h hcond)

theorem add_edge_edges_false {G : Graph} {u v : Int}
    (h : G.hasEdge u v = false) :
    (G.add_edge u v).edges = G.edges ++ [(u, v)] := by
  simp only [Graph.add_edge]
  split_ifs <;>
    first
      | rfl
      | (rename_i hcond
         have hc2 : G.hasEdge u v = true := hcond
         rw [h] at hc2
         simp at hc2)

theorem addStopVertex_resolved {nm : List (Int × RawElement)}
    {r : RawElement} {m : Member} {nd : RawElement} (G : Graph)
    (hfind : dictFind m.ref nm = some nd)
    (ht : nd.tags.isSome = true) (hrt : r.tags.isSome = true)
    (hlat : nd.lat.isSome = true) (hlon : nd.lon.isSome = true) :
    addStopVertex nm r G m =
      Except.ok (G.add_node m.ref (stopAttrs r nd m.ref)) := by
  obtain ⟨ndTags, ht'⟩ := Option.isSome_iff_exists.mp ht
  obtain ⟨rTags, hrt'⟩ := Option.isSome_iff_exists.mp hrt
  obtain ⟨lat, hlat'⟩ := Option.isSome_iff_exists.mp hlat
  obtain ⟨lon, hlon'⟩ := Option.isSome_iff_exists.mp hlon
  rw [addStopVertex]
  simp only [hfind, ht', hrt', hlat', hlon', getField, exceptOkBind,
    stopAttrs, NodeAttrs.full, Option.getD_some]

/-- Claim C3: one route whose stop-role members are `[A, B, C]` in that
order, all resolvable, produces exactly the vertex set `{A, B, C}` and
the (undirected) edge set `{(A,B), (B,C)}`. -/
theorem create_route_graph_three_stops (a b c : Int) (r : RawElement)
    (nm : List (Int × RawElement)) (ms : List Member)
    (hm : r.members = some ms)
    (hstops : (stopMembers ms).map Member.ref = [a, b, c])
    (hrt : r.tags.isSome = true)
    (hn : ∀ x ∈ [a, b, c], nodeResolvable nm x = true) :
    ∃ G, create_route_graph [r] nm = Except.ok G ∧
      (G.nodes.map Prod.fst).toFinset = {a, b, c} ∧
      (G.edges.map Sym2.mk).toFinset =
        {Sym2.mk (a, b), Sym2.mk (b, c)} := by
  rcases hl : stopMembers ms with - | ⟨m1, - | ⟨m2, - | ⟨m3, - | ⟨m4, tl⟩⟩⟩⟩
  · rw [hl] at hstops
    simp at hstops
  · rw [hl] at hstops
    simp at hstops
  · rw [hl] at hstops
    simp at hstops
  case cons.cons.cons.cons =>
    rw [hl] at hstops
    simp at hstops
  case cons.cons.cons.nil =>
    rw [hl] at hstops
    simp only [List.map_cons, List.map_nil, List.cons.injEq,
      and_true] at hstops
    obtain ⟨hr1, hr2, hr3⟩ := hstops
    subst hr1
    subst hr2
    subst hr3
    have ha := hn m1.ref (by simp)
    have hb := hn m2.ref (by simp)
    have hc := hn m3.ref (by simp)
    clear hn
    cases hfa : dictFind m1.ref nm with
    | none => simp [nodeResolvable, hfa] at ha
    | some nda =>
    cases hfb : dictFind m2.ref nm with
    | none => simp [nodeResolvable, hfb] at hb
    | some ndb =>
    cases hfc : dictFind m3.ref nm with
    | none => simp [nodeResolvable, hfc] at hc
    | some ndc =>
    simp only [nodeResolvable, hfa] at ha
    simp only [nodeResolvable, hfb] at hb
    simp only [nodeResolvable, hfc] at hc
    rw [nodeWF, Bool.and_eq_true, Bool.and_eq_true] at ha hb hc
    obtain ⟨⟨hta, hlata⟩, hlona⟩ := ha
    obtain ⟨⟨htb, hlatb⟩, hlonb⟩ := hb
    obtain ⟨⟨htc, hlatc⟩, hlonc⟩ := hc
    have h1 := addStopVertex_resolved Graph.emptyGraph hfa hta hrt hlata hlona
    have h2 := addStopVertex_resolved
      (Graph.emptyGraph.add_node m1.ref (stopAttrs r nda m1.ref))
      hfb htb hrt hlatb hlonb
    have h3 := addStopVertex_resolved
      ((Graph.emptyGraph.add_node m1.ref (stopAttrs r nda m1.ref)).add_node
        m2.ref (stopAttrs r ndb m2.ref))
      hfc htc hrt hlatc hlonc
    have hfold : [m1, m2, m3].foldlM (addStopVertex nm r)
        Graph.emptyGraph = Except.ok
          (((Graph.emptyGraph.add_node m1.ref
            (stopAttrs r nda m1.ref)).add_node m2.ref
            (stopAttrs r ndb m2.ref)).add_node m3.ref
            (stopAttrs r ndc m3.ref)) := by
      rw [List.foldlM_cons, h1, exceptOkBind, List.foldlM_cons, h2,
        exceptOkBind, List.foldlM_cons, h3, exceptOkBind, List.foldlM_nil]
      rfl
    set G3 : Graph := ((Graph.emptyGraph.add_node m1.ref
      (stopAttrs r nda m1.ref)).add_node m2.ref
      (stopAttrs r ndb m2.ref)).add_node m3.ref
      (stopAttrs r ndc m3.ref) with hG3
    have hproc : processRoute nm Graph.emptyGraph r =
        Except.ok (addEdgesAlong G3 [m1.ref, m2.ref, m3.ref]) := by
      rw [processRoute]
      simp only [hm, getField, exceptOkBind, hl, hfold, List.map_cons,
        List.map_nil]
    have hrun : create_route_graph [r] nm =
        Except.ok ((G3.add_edge m1.ref m2.ref).add_edge m2.ref m3.ref) := by
      rw [create_route_graph, List.foldlM_cons, hproc, exceptOkBind,
        List.foldlM_nil]
      rfl
    have hkeys : ∀ x : Int, x ∈ G3.nodes.map Prod.fst ↔
        x = m3.ref ∨ x = m2.ref ∨ x = m1.ref := by
      intro x
      rw [hG3, add_node_nodes, add_node_nodes, add_node_nodes,
        mem_keys_dictInsert, mem_keys_dictInsert, mem_keys_dictInsert]
      simp [Graph.emptyGraph]
    have hpA : (dictFind m1.ref G3.nodes).isSome = true := by
      rw [dictFind_isSome_iff, hkeys]
      tauto
    have hpB : (dictFind m2.ref G3.nodes).isSome = true := by
      rw [dictFind_isSome_iff, hkeys]
      tauto
    have hpC : (dictFind m3.ref G3.nodes).isSome = true := by
      rw [dictFind_isSome_iff, hkeys]
      tauto
    have h1n : (G3.add_edge m1.ref m2.ref).nodes = G3.nodes :=
      add_edge_nodes_of_present hpA hpB
    have h2n : ((G3.add_edge m1.ref m2.ref).add_edge m2.ref
        m3.ref).nodes = G3.nodes := by
      rw [add_edge_nodes_of_present (by rw [h1n]; exact hpB)
        (by rw [h1n]; exact hpC), h1n]
    have hE0 : G3.edges = [] := rfl
    have hhe1 : G3.hasEdge m1.ref m2.ref = false := by
      rw [Graph.hasEdge, hE0]
      rfl
    have hEdges1 : (G3.add_edge m1.ref m2.ref).edges =
        [(m1.ref, m2.ref)] := by
      rw [add_edge_edges_false hhe1, hE0]
      rfl
    refine ⟨(G3.add_edge m1.ref m2.ref).add_edge m2.ref m3.ref, hrun,
      ?_, ?_⟩
    · rw [h2n]
      apply Finset.ext
      intro x
      rw [List.mem_toFinset, hkeys]
      simp only [Finset.mem_insert, Finset.mem_singleton]
      tauto
    · by_cases hac : m1.ref = m3.ref
      · have hhe2 : (G3.add_edge m1.ref m2.ref).hasEdge m2.ref
            m3.ref = true := by
          rw [Graph.hasEdge, hEdges1]
          simp [hac]
        have hsw : Sym2.mk (m2.ref, m3.ref) = Sym2.mk (m1.ref, m2.ref) := by
          rw [← hac]
          exact Sym2.eq_swap
        rw [add_edge_edges_true hhe2, hEdges1]
        apply Finset.ext
        intro s
        simp only [List.map_cons, List.map_nil, List.toFinset_cons,
          List.toFinset_nil, insert_emptyc_eq, Finset.mem_insert,
          Finset.mem_singleton, hsw]
        tauto
      · have hmid : (decide (m1.ref = m2.ref) &&
            decide (m2.ref = m3.ref)) = false := by
          by_cases h12 : m1.ref = m2.ref
          · by_cases h23 : m2.ref = m3.ref
            · exact absurd (h12.trans h23) hac
            · simp [h23]
          · simp [h12]
        have hhe2 : (G3.add_edge m1.ref m2.ref).hasEdge m2.ref
            m3.ref = false := by
          rw [Graph.hasEdge, hEdges1]
          simp only [List.any_cons, List.any_nil, Bool.or_false]
          simp [hmid, hac]
        rw [add_edge_edges_false hhe2, hEdges1]
        simp

/-- Witness for C3: a concrete route with stop members [1, 2, 3], all
resolvable, yields vertices {1, 2, 3} and edges {(1,2), (2,3)}. -/
theorem create_route_graph_three_stops_witness :
    ∃ G, create_route_graph [w3Route] (extract_node_elements w3Nodes) =
        Except.ok G ∧
      (G.nodes.map Prod.fst).toFinset = ({1, 2, 3} : Finset Int) ∧
      (G.edges.map Sym2.mk).toFinset =
        {Sym2.mk (1, 2), Sym2.mk (2, 3)} :=
  create_route_graph_three_stops 1 2 3 w3Route
    (extract_node_elements w3Nodes)
    [⟨1, "stop"⟩, ⟨2, "stop"⟩, ⟨3, "stop"⟩] rfl (by decide) rfl (by decide)

end Subway
